import Mathlib

/-!
The tiny-notes-app server: note store, HTTP handlers and LLM helper.

A shallow embedding of `src/server.js` (and of the form submit handler of
`src/public/script.js`).

Modelling conventions:

* The module-level variables `notes` and `nextId` are the two fields of `Store`;
  every handler is a function from the store before the request to the response
  and the store after it.
* The CRUD handlers are synchronous. The rewrite handler suspends at its
  `await`: `rewriteStart` is the part before it, `rewriteResume` the part after
  it, applied to the store as it is when the provider has answered (other
  requests may have been handled in between). `rewriteNote` is the handler run
  to completion with nothing in between. The summarize handler never writes
  the store, so only its run to completion is modelled.
* The counter `nextId` is a natural number; `nextId++` is exact (counters stay
  below 2^53, where JavaScript number arithmetic on integers is exact).
* `new Date().toISOString()` is the parameter `now` of the create request.
* `openai.responses.create` is the parameter `provider` of the AI handlers: a
  function from the request sent to either a thrown error or the response
  value. The requests a handler sends are recorded in `Outcome.calls`.
-/

namespace TinyNotes

/-! ## JavaScript values -/

/-- An integer in the range where JavaScript numbers are exact and are printed
as plain decimal digits (magnitude below 2^53). -/
structure SafeInt where
  val : Int
  safe : val.natAbs < 9007199254740992

/-- A JavaScript value as the handlers see it: the values JSON can carry, plus
`undefined` for a missing property. Numbers are restricted to safe integers. An
object is its list of own properties (the first entry of a key is the one
read); its prototype is `Object.prototype`, as for every object `JSON.parse`
builds. -/
inductive JsVal where
  | undefined
  | null
  | bool (b : Bool)
  | num (n : SafeInt)
  | str (s : String)
  | arr (items : List JsVal)
  | obj (fields : List (String × JsVal))

/-- JavaScript truthiness (`!v` is `!v.truthy`): `undefined`, `null`, `false`,
`0` and `""` are falsy, everything else is truthy. -/
def JsVal.truthy : JsVal → Bool
  | .undefined => false
  | .null => false
  | .bool b => b
  | .num n => n.val != 0
  | .str s => s != ""
  | .arr _ => true
  | .obj _ => true

/-- The values on which `??` and `?.` take their fallback branch. -/
def JsVal.isNullish : JsVal → Bool
  | .undefined => true
  | .null => true
  | _ => false

/-- Property read `v.key` on a value that is not nullish. Only objects carry the
properties the server reads by name. -/
def JsVal.get (v : JsVal) (key : String) : JsVal :=
  match v with
  | .obj fields => (fields.lookup key).getD .undefined
  | _ => .undefined

/-- Index read `v[0]` on a value that is not nullish. -/
def JsVal.index0 : JsVal → JsVal
  | .obj fields => (fields.lookup "0").getD .undefined
  | .arr items => items.headD .undefined
  | .str s =>
    match s.data with
    | [] => .undefined
    | c :: _ => .str (String.singleton c)
  | _ => .undefined

/-- Optional chaining `v?.key`. -/
def JsVal.optGet (v : JsVal) (key : String) : JsVal :=
  if v.isNullish then .undefined else v.get key

/-- Optional chaining `v?.[0]`. -/
def JsVal.optIndex0 (v : JsVal) : JsVal :=
  if v.isNullish then .undefined else v.index0

/-- Nullish coalescing `a ?? b`. -/
def JsVal.coalesce (a b : JsVal) : JsVal :=
  if a.isNullish then b else a

/-- The characters `String.prototype.trim` strips: ECMAScript WhiteSpace and
LineTerminator code points. -/
def isJsSpace (c : Char) : Bool :=
  let n := c.toNat
  n == 0x09 || n == 0x0A || n == 0x0B || n == 0x0C || n == 0x0D || n == 0x20 ||
  n == 0xA0 || n == 0x1680 || (0x2000 ≤ n && n ≤ 0x200A) || n == 0x2028 ||
  n == 0x2029 || n == 0x202F || n == 0x205F || n == 0x3000 || n == 0xFEFF

/-- Trimming of a character list at both ends. -/
def trimChars (cs : List Char) : List Char :=
  ((cs.dropWhile isJsSpace).reverse.dropWhile isJsSpace).reverse

/-- The method `String.prototype.trim`. -/
def jsTrim (s : String) : String :=
  ⟨trimChars s.data⟩

mutual
/-- JavaScript `ToString`, as applied by a template literal; an error result is
a thrown `TypeError`. An object with an own `toString` property has no callable
`toString` (JSON carries no functions) and `Object.prototype.valueOf` returns
the object itself, so the conversion throws; any other object is printed by
`Object.prototype.toString`. -/
def jsToString : JsVal → Except String String
  | .undefined => .ok "undefined"
  | .null => .ok "null"
  | .bool b => .ok (if b then "true" else "false")
  | .num n => .ok (toString n.val)
  | .str s => .ok s
  | .arr items => joinItems items
  | .obj fields =>
    if (fields.lookup "toString").isSome then .error "TypeError"
    else .ok "[object Object]"
/-- The method `Array.prototype.join` with separator `,`: nullish elements
contribute the empty string, the others are converted from left to right. -/
def joinItems : List JsVal → Except String String
  | [] => .ok ""
  | [v] => if v.isNullish then .ok "" else jsToString v
  | v :: rest =>
    match (if v.isNullish then .ok "" else jsToString v) with
    | .error e => .error e
    | .ok first =>
      match joinItems rest with
      | .error e => .error e
      | .ok others => .ok (first ++ "," ++ others)
end

/-! ## The note store -/

/-- A note record as built by the create handler. -/
structure Note where
  id : Nat
  title : JsVal
  body : JsVal
  createdAt : String

/-- The in-memory database: `notes` and `nextId`. -/
structure Store where
  notes : List Note
  nextId : Nat

/-- The store at start-up: `notes = []`, `nextId = 1`. -/
def initStore : Store :=
  ⟨[], 1⟩

/-- The JSON payload of a response. -/
inductive Payload where
  | empty
  | error (msg : String)
  | note (n : Note)
  | notes (ns : List Note)
  | summary (text : String)
  | rewritten (text : String)

/-- An HTTP response: status code and payload. -/
structure Response where
  status : Nat
  payload : Payload

/-- One entry of the `input` array sent to the provider. -/
structure LLMMessage where
  role : String
  content : String

/-- The argument of `openai.responses.create`. -/
structure LLMRequest where
  model : String
  input : List LLMMessage

/-- What a handler did: its response, the store afterwards and the requests it
sent to the provider, in order. -/
structure Outcome where
  res : Response
  store : Store
  calls : List LLMRequest

/-- The body of a create request: the `title` and `body` properties of
`req.body` (`undefined` when the property is missing). -/
structure CreateReq where
  title : JsVal
  body : JsVal

/-- Handler of `GET /api/notes`. -/
def getNotes (s : Store) : Outcome :=
  ⟨⟨200, .notes s.notes⟩, s, []⟩

/-- Handler of `POST /api/notes`. -/
def postNote (now : String) (req : CreateReq) (s : Store) : Outcome :=
  if !req.title.truthy || !req.body.truthy then
    ⟨⟨400, .error "Title and body are required"⟩, s, []⟩
  else
    let newNote : Note := ⟨s.nextId, req.title, req.body, now⟩
    ⟨⟨201, .note newNote⟩, ⟨s.notes ++ [newNote], s.nextId + 1⟩, []⟩

/-- The value of `Number(req.params.id)` as far as `===` against a stored id can
tell: `some n` when it is the natural number `n`, `none` for every other number
(`NaN`, a fraction, a negative number, an infinity). -/
abbrev ReqId := Option Nat

/-- Strict equality `note.id === id` of a stored id with the request id. -/
def idEq (noteId : Nat) (id : ReqId) : Bool :=
  id == some noteId

/-- Handler of `DELETE /api/notes/:id`. -/
def deleteNote (id : ReqId) (s : Store) : Outcome :=
  let prevLength := s.notes.length
  let notes := s.notes.filter (fun note => !idEq note.id id)
  if notes.length == prevLength then
    ⟨⟨404, .error "Note not found"⟩, ⟨notes, s.nextId⟩, []⟩
  else
    ⟨⟨204, .empty⟩, ⟨notes, s.nextId⟩, []⟩

/-! ## The LLM helper -/

/-- The external provider call `openai.responses.create`: a thrown error or the
response value. -/
abbrev Provider := LLMRequest → Except String JsVal

/-- The request `callLLM` sends for a system prompt and a user prompt. -/
def llmRequest (system user : String) : LLMRequest :=
  ⟨"gpt-5.1", [⟨"system", system⟩, ⟨"user", user⟩]⟩

/-- The nested fallback `response.output?.[0]?.content?.[0]?.text?.value`. -/
def nestedText (response : JsVal) : JsVal :=
  (((((response.get "output").optIndex0).optGet "content").optIndex0).optGet "text").optGet "value"

/-- The constant `text` of `callLLM`:
`response.output_text ?? response.output?.[0]?.content?.[0]?.text?.value ?? ""`. -/
def extractText (response : JsVal) : JsVal :=
  ((response.get "output_text").coalesce (nestedText response)).coalesce (.str "")

/-- The tail of `callLLM` after the provider has answered: extraction and
`text.trim()`. Reading a property of a nullish response and calling `trim` on a
value that is not a string throw a `TypeError`. -/
def textOfResponse (response : JsVal) : Except String String :=
  if response.isNullish then
    .error "TypeError"
  else
    match extractText response with
    | .str text => .ok (jsTrim text)
    | _ => .error "TypeError"

/-- The helper `callLLM`, called with a system prompt and a user prompt. -/
def callLLM (provider : Provider) (system user : String) : Except String String :=
  match provider (llmRequest system user) with
  | .error e => .error e
  | .ok response => textOfResponse response

/-! ## The AI endpoints -/

/-- The lookup `notes.find((n) => n.id === id)`. -/
def findNote (notes : List Note) (id : ReqId) : Option Note :=
  notes.find? (fun n => idEq n.id id)

/-- The system prompt of the summarize handler. -/
def summarizeSystem : String :=
  "You summarize personal notes. Return a 1â€“2 sentence summary. Be concise and helpful."

/-- The system prompt of the rewrite handler. -/
def rewriteSystem : String :=
  "You rewrite personal notes to be clearer and more concise while preserving all important details."

/-- The user prompt of the summarize handler: the template literal
`Here is the note:\n\n${note.body}`. -/
def summarizeUser (body : JsVal) : Except String String :=
  match jsToString body with
  | .error e => .error e
  | .ok text => .ok ("Here is the note:\n\n" ++ text)

/-- The user prompt of the rewrite handler: the template literal
`Rewrite this note:\n\n${note.body}`. -/
def rewriteUser (body : JsVal) : Except String String :=
  match jsToString body with
  | .error e => .error e
  | .ok text => .ok ("Rewrite this note:\n\n" ++ text)

/-- Handler of `POST /api/notes/:id/summarize`. The prompt is built inside the
`try`, so a conversion that throws is answered 500 before any provider call. -/
def summarizeNote (provider : Provider) (id : ReqId) (s : Store) : Outcome :=
  match findNote s.notes id with
  | none => ⟨⟨404, .error "Note not found"⟩, s, []⟩
  | some note =>
    match summarizeUser note.body with
    | .error _ => ⟨⟨500, .error "Failed to summarize note"⟩, s, []⟩
    | .ok user =>
      match callLLM provider summarizeSystem user with
      | .ok summary => ⟨⟨200, .summary summary⟩, s, [llmRequest summarizeSystem user]⟩
      | .error _ =>
        ⟨⟨500, .error "Failed to summarize note"⟩, s, [llmRequest summarizeSystem user]⟩

/-- The assignment `note.body = rewritten` on the object `find` returned: the
first record of the list whose id equals `id` gets the new body. A list without
such a record is left as it is (the object is no longer in the list). -/
def setBody (notes : List Note) (id : ReqId) (rewritten : String) : List Note :=
  match notes with
  | [] => []
  | n :: rest =>
    if idEq n.id id then { n with body := .str rewritten } :: rest
    else n :: setBody rest id rewritten

/-- A rewrite handler suspended at its `await`: the id of the note object that
`find` returned, which the handler keeps a reference to, and the user prompt it
sent. Ids are never reused, so the id identifies the object. -/
structure PendingRewrite where
  noteId : Nat
  user : String

/-- The rewrite handler up to its `await`: either it has answered already, or it
has sent its request and is suspended. -/
inductive RewriteStart where
  | done (res : Response)
  | awaiting (p : PendingRewrite)

/-- The part of `POST /api/notes/:id/rewrite` before the `await`: lookup, 404 if
absent, prompt construction inside the `try` (500 if it throws). -/
def rewriteStart (id : ReqId) (s : Store) : RewriteStart :=
  match findNote s.notes id with
  | none => .done ⟨404, .error "Note not found"⟩
  | some note =>
    match rewriteUser note.body with
    | .error _ => .done ⟨500, .error "Failed to rewrite note"⟩
    | .ok user => .awaiting ⟨note.id, user⟩

/-- What `await callLLM(...)` yields once the provider has given its answer. -/
def awaitResult (answer : Except String JsVal) : Except String String :=
  match answer with
  | .error e => .error e
  | .ok response => textOfResponse response

/-- The part of `POST /api/notes/:id/rewrite` after the `await`, on the store as
it is when the provider has answered: the body assignment and the 200 response,
or the 500 response of the `catch`. -/
def rewriteResume (answer : Except String JsVal) (p : PendingRewrite) (s : Store) :
    Response × Store :=
  match awaitResult answer with
  | .ok rewritten =>
    (⟨200, .rewritten rewritten⟩, ⟨setBody s.notes (some p.noteId) rewritten, s.nextId⟩)
  | .error _ => (⟨500, .error "Failed to rewrite note"⟩, s)

/-- Handler of `POST /api/notes/:id/rewrite`, run to completion: no other
request is handled while it waits for the provider. -/
def rewriteNote (provider : Provider) (id : ReqId) (s : Store) : Outcome :=
  match rewriteStart id s with
  | .done res => ⟨res, s, []⟩
  | .awaiting p =>
    ⟨(rewriteResume (provider (llmRequest rewriteSystem p.user)) p s).1,
      (rewriteResume (provider (llmRequest rewriteSystem p.user)) p s).2,
      [llmRequest rewriteSystem p.user]⟩

/-! ## Request sequences -/

/-- A request to the server together with what its handler reads from the
environment (the clock, the provider). -/
inductive Request where
  | list
  | create (now : String) (req : CreateReq)
  | delete (id : ReqId)
  | summarize (provider : Provider) (id : ReqId)
  | rewrite (provider : Provider) (id : ReqId)

/-- Dispatch of a request to its handler. -/
def handle (r : Request) (s : Store) : Outcome :=
  match r with
  | .list => getNotes s
  | .create now req => postNote now req s
  | .delete id => deleteNote id s
  | .summarize provider id => summarizeNote provider id s
  | .rewrite provider id => rewriteNote provider id s

/-- The store after a sequence of requests, handled one after the other. -/
def run (rs : List Request) (s : Store) : Store :=
  match rs with
  | [] => s
  | r :: rest => run rest (handle r s).store

/-- The stores the server can be in: those a request sequence produces from the
start-up store. A rewrite resumed after other requests writes the store as a
rewrite run to completion at that moment does (or not at all, when its note has
been deleted), so interleaving adds no store. -/
def Reachable (s : Store) : Prop :=
  ∃ rs : List Request, run rs initStore = s

/-! ## The client form -/

/-- The form submit handler of the client up to the `fetch`: both inputs are
trimmed; if either is then empty no request is sent, otherwise the create
request carries the trimmed texts. -/
def submitForm (titleInput bodyInput : String) : Option CreateReq :=
  let title := jsTrim titleInput
  let body := jsTrim bodyInput
  if !(JsVal.str title).truthy || !(JsVal.str body).truthy then
    none
  else
    some ⟨.str title, .str body⟩

/-- The store after a form submission has been handled by the server. -/
def submitAndCreate (now titleInput bodyInput : String) (s : Store) : Store :=
  match submitForm titleInput bodyInput with
  | none => s
  | some req => (postNote now req s).store

/-! ## Invariants -/

/-- The ids of the stored notes, in list order. -/
def Store.ids (s : Store) : List Nat :=
  s.notes.map Note.id

/-- The id discipline of the store: ids strictly increase along the list, are
positive and lie below the next-id counter, which is positive too. -/
def IdInv (s : Store) : Prop :=
  s.ids.Pairwise (fun a b => a < b) ∧ 0 < s.nextId ∧ ∀ i ∈ s.ids, 0 < i ∧ i < s.nextId

/-- The text the LLM helper returned to a request, if the request is a rewrite
that got one: the `rewritten` field of its 200 response. -/
def stepTexts (r : Request) (s : Store) : List String :=
  match r with
  | .rewrite provider id =>
    match (rewriteNote provider id s).res.payload with
    | .rewritten text => [text]
    | _ => []
  | _ => []

/-- The texts the LLM helper returned to the rewrite requests of a sequence
handled from store `s`, in order. -/
def rewriteTexts (rs : List Request) (s : Store) : List String :=
  match rs with
  | [] => []
  | r :: rest => stepTexts r s ++ rewriteTexts rest (handle r s).store

/-- A request that, when it is a create request, carries text for title and
body, as the client form always sends. -/
def TextCreate : Request → Prop
  | .create _ req => ∃ t b, req.title = .str t ∧ req.body = .str b
  | _ => True

/-! ## Basic facts about the handlers -/

theorem postNote_of_falsy (now : String) (req : CreateReq) (s : Store)
    (h : (!req.title.truthy || !req.body.truthy) = true) :
    postNote now req s = ⟨⟨400, .error "Title and body are required"⟩, s, []⟩ := by
  unfold postNote
  rw [if_pos h]

theorem postNote_of_truthy (now : String) (req : CreateReq) (s : Store)
    (ht : req.title.truthy = true) (hb : req.body.truthy = true) :
    postNote now req s =
      ⟨⟨201, .note ⟨s.nextId, req.title, req.body, now⟩⟩,
        ⟨s.notes ++ [⟨s.nextId, req.title, req.body, now⟩], s.nextId + 1⟩, []⟩ := by
  unfold postNote
  rw [if_neg (by simp [ht, hb])]

theorem deleteNote_store (id : ReqId) (s : Store) :
    (deleteNote id s).store = ⟨s.notes.filter (fun note => !idEq note.id id), s.nextId⟩ := by
  unfold deleteNote
  dsimp only
  split <;> rfl

theorem deleteNote_status (id : ReqId) (s : Store) :
    (deleteNote id s).res.status =
      if (s.notes.filter (fun note => !idEq note.id id)).length = s.notes.length then 404
      else 204 := by
  unfold deleteNote
  dsimp only
  by_cases h : (s.notes.filter (fun note => !idEq note.id id)).length = s.notes.length
  · simp [h]
  · simp [h]

theorem findNote_eq_none (notes : List Note) (id : ReqId)
    (h : ∀ m ∈ notes, idEq m.id id = false) : findNote notes id = none := by
  unfold findNote
  rw [List.find?_eq_none]
  intro m hm
  simp [h m hm]

/-! ## Claims -/

/-- C1: a create request whose title or body is missing or the empty string is
answered with status 400 and the store is left as it was: same note list, same
next-id counter. -/
theorem postNote_rejects_missing_or_empty (now : String) (req : CreateReq) (s : Store)
    (h : req.title = .undefined ∨ req.title = .str "" ∨
      req.body = .undefined ∨ req.body = .str "") :
    (postNote now req s).res.status = 400 ∧
      (postNote now req s).store = s ∧
      (postNote now req s).store.notes = s.notes ∧
      (postNote now req s).store.nextId = s.nextId := by
  have hf : (!req.title.truthy || !req.body.truthy) = true := by
    rcases h with h | h | h | h <;> simp [h, JsVal.truthy]
  rw [postNote_of_falsy now req s hf]
  exact ⟨rfl, rfl, rfl, rfl⟩

theorem postNote_rejects_missing_or_empty_witness :
    (postNote "2025-01-01T00:00:00.000Z" ⟨.undefined, .str "milk"⟩ ⟨[⟨1, .str "a", .str "b", "t0"⟩], 2⟩).res.status = 400 ∧
      (postNote "2025-01-01T00:00:00.000Z" ⟨.undefined, .str "milk"⟩ ⟨[⟨1, .str "a", .str "b", "t0"⟩], 2⟩).store =
        ⟨[⟨1, .str "a", .str "b", "t0"⟩], 2⟩ :=
  have h := postNote_rejects_missing_or_empty "2025-01-01T00:00:00.000Z"
    ⟨.undefined, .str "milk"⟩ ⟨[⟨1, .str "a", .str "b", "t0"⟩], 2⟩ (Or.inl rfl)
  ⟨h.1, h.2.1⟩

/-- C4: deleting an id that no stored note has is answered with status 404 and
the store is left as it was: same records in the same order, same next-id
counter. -/
theorem deleteNote_unknown_id (id : ReqId) (s : Store)
    (h : ∀ m ∈ s.notes, idEq m.id id = false) :
    (deleteNote id s).res.status = 404 ∧
      (deleteNote id s).store = s ∧
      (deleteNote id s).store.notes = s.notes ∧
      (deleteNote id s).store.nextId = s.nextId := by
  have hfilter : s.notes.filter (fun note => !idEq note.id id) = s.notes := by
    rw [List.filter_eq_self]
    intro m hm
    simp [h m hm]
  refine ⟨?_, ?_, ?_, ?_⟩
  · rw [deleteNote_status, hfilter]; simp
  · rw [deleteNote_store, hfilter]
  · rw [deleteNote_store, hfilter]
  · rw [deleteNote_store]

theorem deleteNote_unknown_id_witness :
    (deleteNote (some 7) ⟨[⟨1, .str "a", .str "b", "t0"⟩, ⟨3, .str "c", .str "d", "t1"⟩], 4⟩).res.status = 404 ∧
      (deleteNote (some 7) ⟨[⟨1, .str "a", .str "b", "t0"⟩, ⟨3, .str "c", .str "d", "t1"⟩], 4⟩).store =
        ⟨[⟨1, .str "a", .str "b", "t0"⟩, ⟨3, .str "c", .str "d", "t1"⟩], 4⟩ :=
  have h := deleteNote_unknown_id (some 7)
    ⟨[⟨1, .str "a", .str "b", "t0"⟩, ⟨3, .str "c", .str "d", "t1"⟩], 4⟩
    (by intro m hm; simp at hm; rcases hm with rfl | rfl <;> decide)
  ⟨h.1, h.2.1⟩

/-- C7: on an id that no stored note has, the summarize handler and the rewrite
handler both answer with status 404, send nothing to the provider and leave the
store as it was. -/
theorem ai_handlers_unknown_id (provider : Provider) (id : ReqId) (s : Store)
    (h : ∀ m ∈ s.notes, idEq m.id id = false) :
    ((summarizeNote provider id s).res.status = 404 ∧
        (summarizeNote provider id s).calls = [] ∧
        (summarizeNote provider id s).store = s) ∧
      ((rewriteNote provider id s).res.status = 404 ∧
        (rewriteNote provider id s).calls = [] ∧
        (rewriteNote provider id s).store = s) := by
  have hnone := findNote_eq_none s.notes id h
  constructor
  · unfold summarizeNote
    rw [hnone]
    exact ⟨rfl, rfl, rfl⟩
  · unfold rewriteNote rewriteStart
    rw [hnone]
    exact ⟨rfl, rfl, rfl⟩

theorem ai_handlers_unknown_id_witness :
    ((summarizeNote (fun _ => .ok (.obj [("output_text", .str "x")])) (some 2)
          ⟨[⟨1, .str "a", .str "b", "t0"⟩], 2⟩).res.status = 404 ∧
        (summarizeNote (fun _ => .ok (.obj [("output_text", .str "x")])) (some 2)
          ⟨[⟨1, .str "a", .str "b", "t0"⟩], 2⟩).calls = []) ∧
      ((rewriteNote (fun _ => .ok (.obj [("output_text", .str "x")])) (some 2)
          ⟨[⟨1, .str "a", .str "b", "t0"⟩], 2⟩).res.status = 404 ∧
        (rewriteNote (fun _ => .ok (.obj [("output_text", .str "x")])) (some 2)
          ⟨[⟨1, .str "a", .str "b", "t0"⟩], 2⟩).calls = []) :=
  have h := ai_handlers_unknown_id (fun _ => .ok (.obj [("output_text", .str "x")])) (some 2)
    ⟨[⟨1, .str "a", .str "b", "t0"⟩], 2⟩
    (by intro m hm; simp at hm; subst hm; decide)
  ⟨⟨h.1.1, h.1.2.1⟩, ⟨h.2.1, h.2.2.1⟩⟩

theorem idEq_iff (noteId : Nat) (id : ReqId) : idEq noteId id = true ↔ id = some noteId := by
  simp [idEq]

theorem idEq_some (a b : Nat) : idEq a (some b) = true ↔ a = b := by
  rw [idEq_iff]
  constructor
  · intro h; exact (Option.some.inj h).symm
  · intro h; rw [h]

theorem callLLM_eq_awaitResult (provider : Provider) (system user : String) :
    callLLM provider system user = awaitResult (provider (llmRequest system user)) := by
  unfold callLLM awaitResult
  cases provider (llmRequest system user) <;> rfl

theorem findNote_id (id : ReqId) (n : Note) :
    ∀ notes : List Note, findNote notes id = some n → n ∈ notes ∧ id = some n.id := by
  intro notes h
  unfold findNote at h
  have h1 : n ∈ notes := List.mem_of_find?_eq_some h
  have h2 : idEq n.id id = true := @List.find?_some Note (fun k => idEq k.id id) n notes h
  exact ⟨h1, (idEq_iff n.id id).mp h2⟩

theorem findNote_first (id : ReqId) (n : Note) (post : List Note) :
    ∀ pre : List Note, (∀ m ∈ pre, idEq m.id id = false) → idEq n.id id = true →
      findNote (pre ++ n :: post) id = some n := by
  intro pre
  induction pre with
  | nil => intro _ hn; simp [findNote, List.find?_cons, hn]
  | cons a rest ih =>
    intro hpre hn
    have ha : idEq a.id id = false := hpre a (List.mem_cons_self a rest)
    have := ih (fun m hm => hpre m (List.mem_cons_of_mem a hm)) hn
    simpa [findNote, List.find?_cons, ha] using this

theorem setBody_first (id : ReqId) (R : String) (n : Note) (post : List Note) :
    ∀ pre : List Note, (∀ m ∈ pre, idEq m.id id = false) → idEq n.id id = true →
      setBody (pre ++ n :: post) id R = pre ++ ⟨n.id, n.title, .str R, n.createdAt⟩ :: post := by
  intro pre
  induction pre with
  | nil => intro _ hn; simp [setBody, hn]
  | cons a rest ih =>
    intro hpre hn
    have ha : idEq a.id id = false := hpre a (List.mem_cons_self a rest)
    have := ih (fun m hm => hpre m (List.mem_cons_of_mem a hm)) hn
    simp [setBody, ha, this]

theorem setBody_absent (id : ReqId) (R : String) :
    ∀ notes : List Note, (∀ m ∈ notes, idEq m.id id = false) → setBody notes id R = notes := by
  intro notes
  induction notes with
  | nil => intro _; rfl
  | cons a rest ih =>
    intro h
    have ha : idEq a.id id = false := h a (List.mem_cons_self a rest)
    simp [setBody, ha, ih (fun m hm => h m (List.mem_cons_of_mem a hm))]

theorem nodup_split (notes : List Note) (n : Note) (hnodup : (notes.map Note.id).Nodup)
    (hn : n ∈ notes) :
    ∃ pre post, notes = pre ++ n :: post ∧ (∀ m ∈ pre, m.id ≠ n.id) ∧
      (∀ m ∈ post, m.id ≠ n.id) := by
  obtain ⟨pre, post, hsplit⟩ := List.append_of_mem hn
  rw [hsplit, List.map_append, List.map_cons] at hnodup
  have hnd := List.nodup_append.mp hnodup
  refine ⟨pre, post, hsplit, ?_, ?_⟩
  · intro m hm hmid
    exact hnd.2.2 (List.mem_map_of_mem Note.id hm) (by simp [hmid])
  · intro m hm hmid
    have hcons := List.nodup_cons.mp hnd.2.1
    exact hcons.1 (hmid ▸ List.mem_map_of_mem Note.id hm)

/-- C5: on a store with pairwise distinct ids, deleting the id of a stored note
is answered with status 204 and removes exactly that record: the new list is the
old one without it (the records before and after it keep their order), it is one
shorter and no remaining note has the id. The next-id counter is untouched. -/
theorem deleteNote_known_id (id : ReqId) (s : Store)
    (hnodup : (s.notes.map Note.id).Nodup)
    (hmem : ∃ m ∈ s.notes, idEq m.id id = true) :
    (deleteNote id s).res.status = 204 ∧
      (deleteNote id s).store.nextId = s.nextId ∧
      (deleteNote id s).store.notes.length + 1 = s.notes.length ∧
      (∀ m ∈ (deleteNote id s).store.notes, idEq m.id id = false) ∧
      ∃ pre n post, s.notes = pre ++ n :: post ∧ idEq n.id id = true ∧
        (deleteNote id s).store.notes = pre ++ post := by
  obtain ⟨n, hn, hid⟩ := hmem
  obtain ⟨pre, post, hsplit⟩ := List.append_of_mem hn
  have hidn : id = some n.id := (idEq_iff n.id id).mp hid
  rw [hsplit, List.map_append, List.map_cons] at hnodup
  have hnd := List.nodup_append.mp hnodup
  have hpre : ∀ m ∈ pre, idEq m.id id = false := by
    intro m hm
    cases hc : idEq m.id id with
    | false => rfl
    | true =>
      exfalso
      have hmid : m.id = n.id := by
        have := (idEq_iff m.id id).mp hc
        rw [hidn] at this
        exact (Option.some.inj this).symm
      exact hnd.2.2 (List.mem_map_of_mem Note.id hm) (by simp [hmid])
  have hpost : ∀ m ∈ post, idEq m.id id = false := by
    intro m hm
    cases hc : idEq m.id id with
    | false => rfl
    | true =>
      exfalso
      have hmid : m.id = n.id := by
        have := (idEq_iff m.id id).mp hc
        rw [hidn] at this
        exact (Option.some.inj this).symm
      have hcons := List.nodup_cons.mp hnd.2.1
      exact hcons.1 (hmid ▸ List.mem_map_of_mem Note.id hm)
  have hfilter : s.notes.filter (fun note => !idEq note.id id) = pre ++ post := by
    rw [hsplit, List.filter_append, List.filter_cons]
    have h1 : pre.filter (fun note => !idEq note.id id) = pre := by
      rw [List.filter_eq_self]; intro m hm; simp [hpre m hm]
    have h2 : post.filter (fun note => !idEq note.id id) = post := by
      rw [List.filter_eq_self]; intro m hm; simp [hpost m hm]
    rw [h1, h2]
    simp [hid]
  have hlen : (pre ++ post).length + 1 = s.notes.length := by
    rw [hsplit]; simp; omega
  refine ⟨?_, ?_, ?_, ?_, pre, n, post, hsplit, hid, ?_⟩
  · rw [deleteNote_status, hfilter]
    have : (pre ++ post).length ≠ s.notes.length := by omega
    rw [if_neg this]
  · rw [deleteNote_store]
  · rw [deleteNote_store]; dsimp only; rw [hfilter]; exact hlen
  · rw [deleteNote_store]; dsimp only; rw [hfilter]
    intro m hm
    rcases List.mem_append.mp hm with h | h
    · exact hpre m h
    · exact hpost m h
  · rw [deleteNote_store]; dsimp only; rw [hfilter]

theorem deleteNote_known_id_witness :
    (deleteNote (some 2)
        ⟨[⟨1, .str "a", .str "b", "t0"⟩, ⟨2, .str "c", .str "d", "t1"⟩, ⟨4, .str "e", .str "f", "t2"⟩], 5⟩).res.status = 204 ∧
      (deleteNote (some 2)
        ⟨[⟨1, .str "a", .str "b", "t0"⟩, ⟨2, .str "c", .str "d", "t1"⟩, ⟨4, .str "e", .str "f", "t2"⟩], 5⟩).store.notes.length + 1 = 3 :=
  have h := deleteNote_known_id (some 2)
    ⟨[⟨1, .str "a", .str "b", "t0"⟩, ⟨2, .str "c", .str "d", "t1"⟩, ⟨4, .str "e", .str "f", "t2"⟩], 5⟩
    (by decide) ⟨⟨2, .str "c", .str "d", "t1"⟩, by simp, by decide⟩
  ⟨h.1, h.2.2.1⟩

/-! ## The rewrite handler -/

theorem rewriteNote_cases (provider : Provider) (id : ReqId) (s : Store) :
    ((rewriteNote provider id s).store = s ∧
        ∀ text, (rewriteNote provider id s).res.payload ≠ .rewritten text) ∨
      ∃ n user R, findNote s.notes id = some n ∧ rewriteUser n.body = .ok user ∧
        callLLM provider rewriteSystem user = .ok R ∧
        rewriteNote provider id s =
          ⟨⟨200, .rewritten R⟩, ⟨setBody s.notes (some n.id) R, s.nextId⟩,
            [llmRequest rewriteSystem user]⟩ := by
  cases hfind : findNote s.notes id with
  | none =>
    left
    have : rewriteNote provider id s = ⟨⟨404, .error "Note not found"⟩, s, []⟩ := by
      unfold rewriteNote rewriteStart
      rw [hfind]
    rw [this]
    exact ⟨rfl, fun text h => by cases h⟩
  | some n =>
    cases huser : rewriteUser n.body with
    | error e =>
      left
      have : rewriteNote provider id s = ⟨⟨500, .error "Failed to rewrite note"⟩, s, []⟩ := by
        unfold rewriteNote rewriteStart
        rw [hfind]
        dsimp only
        rw [huser]
      rw [this]
      exact ⟨rfl, fun text h => by cases h⟩
    | ok user =>
      have hstart : rewriteStart id s = .awaiting ⟨n.id, user⟩ := by
        unfold rewriteStart
        rw [hfind]
        dsimp only
        rw [huser]
      cases hans : awaitResult (provider (llmRequest rewriteSystem user)) with
      | error e =>
        left
        have : rewriteNote provider id s =
            ⟨⟨500, .error "Failed to rewrite note"⟩, s, [llmRequest rewriteSystem user]⟩ := by
          unfold rewriteNote
          rw [hstart]
          dsimp only
          unfold rewriteResume
          rw [hans]
        rw [this]
        exact ⟨rfl, fun text h => by cases h⟩
      | ok R =>
        right
        refine ⟨n, user, R, rfl, huser, ?_, ?_⟩
        · rw [callLLM_eq_awaitResult, hans]
        · unfold rewriteNote
          rw [hstart]
          dsimp only
          unfold rewriteResume
          rw [hans]

theorem idEq_of_ne (a b : Nat) (h : a ≠ b) : idEq a (some b) = false := by
  cases hc : idEq a (some b) with
  | false => rfl
  | true => exact absurd ((idEq_some a b).mp hc) h

/-- C6, as stated, fails in two ways. A stored note whose body has an own
`toString` property cannot be turned into a prompt: the handler answers 500,
calls no provider and keeps the body. And a delete handled while the rewrite
handler waits for the provider leaves no note to carry the text: the handler
still answers 200 with the text, and the store holds no note with that body. -/
theorem rewrite_body_counterexample :
    (rewriteNote (fun _ => .ok (.obj [("output_text", .str "R")])) (some 1)
        (run [.create "t0" ⟨.str "T", .obj [("toString", .bool true)]⟩] initStore)).res =
        ⟨500, .error "Failed to rewrite note"⟩ ∧
      (rewriteNote (fun _ => .ok (.obj [("output_text", .str "R")])) (some 1)
        (run [.create "t0" ⟨.str "T", .obj [("toString", .bool true)]⟩] initStore)).calls = [] ∧
      (rewriteNote (fun _ => .ok (.obj [("output_text", .str "R")])) (some 1)
        (run [.create "t0" ⟨.str "T", .obj [("toString", .bool true)]⟩] initStore)).store.notes =
        [⟨1, .str "T", .obj [("toString", .bool true)], "t0"⟩] ∧
      rewriteStart (some 1) (run [.create "t0" ⟨.str "T", .str "B"⟩] initStore) =
        .awaiting ⟨1, "Rewrite this note:\n\nB"⟩ ∧
      rewriteResume (.ok (.obj [("output_text", .str "R")])) ⟨1, "Rewrite this note:\n\nB"⟩
          (run [.create "t0" ⟨.str "T", .str "B"⟩, .delete (some 1)] initStore) =
        (⟨200, .rewritten "R"⟩, ⟨[], 2⟩) := by
  refine ⟨?_, ?_, ?_, ?_, ?_⟩
  · rfl
  · rfl
  · rfl
  · rfl
  · rfl

/-- C6 (amended): let n be a stored note of a store with pairwise distinct ids,
let the request carry its id, let the prompt be built from its body without
error, and let the LLM helper return the text R. The handler suspends holding
that note. Run to completion it answers 200 with rewritten = R after one
provider call; the new list is the old one with n replaced, at its position,
by the record of the same id, title and createdAt and body R, and the next-id
counter is unchanged. Resumed on a later store (pairwise distinct ids) it
answers 200 with rewritten = R and leaves the counter alone; a note of that id
still in the later store gets body R at its position, keeping id, title and
createdAt; when none is left the later store is unchanged. -/
theorem rewrite_updates_body (provider : Provider) (id : ReqId) (s later : Store) (n : Note)
    (user R : String) (hn : n ∈ s.notes) (hid : id = some n.id)
    (hnodup : (s.notes.map Note.id).Nodup)
    (huser : rewriteUser n.body = .ok user)
    (hR : callLLM provider rewriteSystem user = .ok R)
    (hlater : (later.notes.map Note.id).Nodup) :
    rewriteStart id s = .awaiting ⟨n.id, user⟩ ∧
      (rewriteNote provider id s).res = ⟨200, .rewritten R⟩ ∧
      (rewriteNote provider id s).calls = [llmRequest rewriteSystem user] ∧
      (rewriteNote provider id s).store.nextId = s.nextId ∧
      (∃ pre post, s.notes = pre ++ n :: post ∧
        (rewriteNote provider id s).store.notes =
          pre ++ ⟨n.id, n.title, .str R, n.createdAt⟩ :: post) ∧
      (rewriteResume (provider (llmRequest rewriteSystem user)) ⟨n.id, user⟩ later).1 =
        ⟨200, .rewritten R⟩ ∧
      (rewriteResume (provider (llmRequest rewriteSystem user)) ⟨n.id, user⟩ later).2.nextId =
        later.nextId ∧
      (∀ k ∈ later.notes, k.id = n.id → ∃ pre post, later.notes = pre ++ k :: post ∧
        (rewriteResume (provider (llmRequest rewriteSystem user)) ⟨n.id, user⟩ later).2.notes =
          pre ++ ⟨k.id, k.title, .str R, k.createdAt⟩ :: post) ∧
      ((∀ k ∈ later.notes, k.id ≠ n.id) →
        (rewriteResume (provider (llmRequest rewriteSystem user)) ⟨n.id, user⟩ later).2 =
          later) := by
  subst hid
  obtain ⟨pre, post, hsplit, hpre, _⟩ := nodup_split s.notes n hnodup hn
  have hpre2 : ∀ m ∈ pre, idEq m.id (some n.id) = false :=
    fun m hm => idEq_of_ne m.id n.id (hpre m hm)
  have hself : idEq n.id (some n.id) = true := (idEq_some n.id n.id).mpr rfl
  have hfind : findNote s.notes (some n.id) = some n := by
    rw [hsplit]
    exact findNote_first (some n.id) n post pre hpre2 hself
  have hstart : rewriteStart (some n.id) s = .awaiting ⟨n.id, user⟩ := by
    unfold rewriteStart
    rw [hfind]
    dsimp only
    rw [huser]
  have hans : awaitResult (provider (llmRequest rewriteSystem user)) = .ok R := by
    rw [← callLLM_eq_awaitResult]
    exact hR
  have hresume : ∀ t : Store,
      rewriteResume (provider (llmRequest rewriteSystem user)) ⟨n.id, user⟩ t =
        (⟨200, .rewritten R⟩, ⟨setBody t.notes (some n.id) R, t.nextId⟩) := by
    intro t
    unfold rewriteResume
    rw [hans]
  have hnote : rewriteNote provider (some n.id) s =
      ⟨⟨200, .rewritten R⟩, ⟨setBody s.notes (some n.id) R, s.nextId⟩,
        [llmRequest rewriteSystem user]⟩ := by
    unfold rewriteNote
    rw [hstart]
    dsimp only
    rw [hresume s]
  refine ⟨hstart, ?_, ?_, ?_, ⟨pre, post, hsplit, ?_⟩, ?_, ?_, ?_, ?_⟩
  · rw [hnote]
  · rw [hnote]
  · rw [hnote]
  · rw [hnote]
    dsimp only
    rw [hsplit]
    exact setBody_first (some n.id) R n post pre hpre2 hself
  · rw [hresume later]
  · rw [hresume later]
  · intro k hk hkid
    obtain ⟨pre2, post2, hsplit2, hpre3, _⟩ := nodup_split later.notes k hlater hk
    refine ⟨pre2, post2, hsplit2, ?_⟩
    rw [hresume later]
    dsimp only
    rw [hsplit2]
    have hkself : idEq k.id (some n.id) = true := (idEq_some k.id n.id).mpr hkid
    exact setBody_first (some n.id) R k post2 pre2
      (fun m hm => idEq_of_ne m.id n.id (hkid ▸ hpre3 m hm)) hkself
  · intro hnone
    rw [hresume later]
    dsimp only
    rw [setBody_absent (some n.id) R later.notes
      (fun m hm => idEq_of_ne m.id n.id (hnone m hm))]

theorem rewrite_updates_body_witness :
    (rewriteNote (fun _ => .ok (.obj [("output_text", .str " buy milk ")])) (some 2)
        ⟨[⟨1, .str "a", .str "b", "t0"⟩, ⟨2, .str "c", .str "d", "t1"⟩], 3⟩).res =
        ⟨200, .rewritten "buy milk"⟩ ∧
      (∃ pre post,
        (⟨[⟨1, .str "a", .str "b", "t0"⟩, ⟨2, .str "c", .str "d", "t1"⟩], 3⟩ : Store).notes =
          pre ++ ⟨2, .str "c", .str "d", "t1"⟩ :: post ∧
        (rewriteNote (fun _ => .ok (.obj [("output_text", .str " buy milk ")])) (some 2)
          ⟨[⟨1, .str "a", .str "b", "t0"⟩, ⟨2, .str "c", .str "d", "t1"⟩], 3⟩).store.notes =
          pre ++ ⟨2, .str "c", .str "buy milk", "t1"⟩ :: post) ∧
      (rewriteResume ((fun _ => .ok (.obj [("output_text", .str " buy milk ")]) : Provider)
          (llmRequest rewriteSystem "Rewrite this note:\n\nd")) ⟨2, "Rewrite this note:\n\nd"⟩
        ⟨[⟨1, .str "a", .str "b", "t0"⟩], 3⟩).2 = ⟨[⟨1, .str "a", .str "b", "t0"⟩], 3⟩ :=
  have h := rewrite_updates_body (fun _ => .ok (.obj [("output_text", .str " buy milk ")]))
    (some 2) ⟨[⟨1, .str "a", .str "b", "t0"⟩, ⟨2, .str "c", .str "d", "t1"⟩], 3⟩
    ⟨[⟨1, .str "a", .str "b", "t0"⟩], 3⟩
    ⟨2, .str "c", .str "d", "t1"⟩ "Rewrite this note:\n\nd" "buy milk"
    (by simp) rfl (by decide) rfl rfl (by decide)
  ⟨h.2.1, h.2.2.2.2.1,
    h.2.2.2.2.2.2.2.2 (by intro k hk; simp at hk; subst hk; decide)⟩

/-! ## The id discipline -/

theorem setBody_ids (id : ReqId) (R : String) :
    ∀ notes : List Note, (setBody notes id R).map Note.id = notes.map Note.id := by
  intro notes
  induction notes with
  | nil => rfl
  | cons a rest ih =>
    by_cases ha : idEq a.id id = true
    · simp [setBody, ha]
    · simp [setBody, ha, ih]

theorem summarizeNote_store (provider : Provider) (id : ReqId) (s : Store) :
    (summarizeNote provider id s).store = s := by
  unfold summarizeNote
  split
  · rfl
  · split
    · rfl
    · split <;> rfl

theorem postNote_store (now : String) (req : CreateReq) (s : Store) :
    (postNote now req s).store = s ∨
      (req.title.truthy = true ∧ req.body.truthy = true ∧
        (postNote now req s).store =
          ⟨s.notes ++ [⟨s.nextId, req.title, req.body, now⟩], s.nextId + 1⟩) := by
  by_cases h : (!req.title.truthy || !req.body.truthy) = true
  · left; rw [postNote_of_falsy now req s h]
  · right
    simp at h
    exact ⟨h.1, h.2, by rw [postNote_of_truthy now req s h.1 h.2]⟩

theorem handle_nextId_le (r : Request) (s : Store) :
    s.nextId ≤ (handle r s).store.nextId := by
  cases r with
  | list => exact Nat.le_refl _
  | create now req =>
    rcases postNote_store now req s with h | ⟨_, _, h⟩
    · simp [handle, h]
    · simp [handle, h]
  | delete id => simp [handle, deleteNote_store]
  | summarize provider id => simp [handle, summarizeNote_store]
  | rewrite provider id =>
    rcases rewriteNote_cases provider id s with ⟨h, _⟩ | ⟨_, _, _, _, _, _, h⟩
    · simp [handle, h]
    · simp [handle, h]

theorem run_nextId_le : ∀ (rs : List Request) (s : Store), s.nextId ≤ (run rs s).nextId := by
  intro rs
  induction rs with
  | nil => intro s; exact Nat.le_refl _
  | cons r rest ih =>
    intro s
    exact Nat.le_trans (handle_nextId_le r s) (ih (handle r s).store)

theorem handle_idInv (r : Request) (s : Store) (h : IdInv s) : IdInv (handle r s).store := by
  cases r with
  | list => exact h
  | create now req =>
    rcases postNote_store now req s with hs | ⟨_, _, hs⟩
    · simpa [handle, hs] using h
    · show IdInv (postNote now req s).store
      rw [hs]
      obtain ⟨hsorted, hpos, hbound⟩ := h
      refine ⟨?_, Nat.succ_pos _, ?_⟩
      · simp only [Store.ids, List.map_append, List.map_cons, List.map_nil]
        rw [List.pairwise_append]
        refine ⟨hsorted, List.pairwise_singleton _ _, ?_⟩
        intro a ha b hb
        rw [List.mem_singleton] at hb
        subst hb
        exact (hbound a ha).2
      · intro i hi
        simp only [Store.ids, List.map_append, List.map_cons, List.map_nil, List.mem_append,
          List.mem_singleton] at hi
        rcases hi with hi | rfl
        · have := hbound i hi
          exact ⟨this.1, Nat.lt_succ_of_lt this.2⟩
        · exact ⟨hpos, Nat.lt_succ_self _⟩
  | delete id =>
    show IdInv (deleteNote id s).store
    rw [deleteNote_store]
    obtain ⟨hsorted, hpos, hbound⟩ := h
    have hsub : List.Sublist ((s.notes.filter (fun note => !idEq note.id id)).map Note.id)
        (s.notes.map Note.id) :=
      List.Sublist.map Note.id (List.filter_sublist s.notes)
    refine ⟨hsorted.sublist hsub, hpos, ?_⟩
    intro i hi
    exact hbound i (hsub.subset hi)
  | summarize provider id =>
    show IdInv (summarizeNote provider id s).store
    rw [summarizeNote_store]
    exact h
  | rewrite provider id =>
    show IdInv (rewriteNote provider id s).store
    rcases rewriteNote_cases provider id s with ⟨hs, _⟩ | ⟨_, _, R, _, _, _, hs⟩
    · rw [hs]; exact h
    · rw [hs]
      unfold IdInv Store.ids
      dsimp only
      rw [setBody_ids]
      exact h

theorem run_idInv : ∀ (rs : List Request) (s : Store), IdInv s → IdInv (run rs s) := by
  intro rs
  induction rs with
  | nil => intro s h; exact h
  | cons r rest ih =>
    intro s h
    exact ih (handle r s).store (handle_idInv r s h)

theorem initStore_idInv : IdInv initStore := by
  refine ⟨List.Pairwise.nil, Nat.one_pos, ?_⟩
  intro i hi
  simp [Store.ids, initStore] at hi

theorem reachable_idInv (s : Store) (h : Reachable s) : IdInv s := by
  obtain ⟨rs, rfl⟩ := h
  exact run_idInv rs initStore initStore_idInv

/-- C8: in every store reachable from the start-up store (empty list, next id 1)
the stored ids are pairwise distinct, positive and below the next-id counter and
strictly increase along the list; no request, and no sequence of requests,
lowers the counter; hence a note created later never gets the id of a note that
was stored in this state, deleted since or not. -/
theorem reachable_id_discipline (s : Store) (h : Reachable s) :
    (s.notes.map Note.id).Nodup ∧
      (∀ m ∈ s.notes, 0 < m.id ∧ m.id < s.nextId) ∧
      (s.notes.map Note.id).Pairwise (fun a b => a < b) ∧
      (∀ r : Request, s.nextId ≤ (handle r s).store.nextId) ∧
      (∀ rs : List Request, s.nextId ≤ (run rs s).nextId) ∧
      (∀ (rs : List Request) (now : String) (req : CreateReq) (n : Note), ∀ m ∈ s.notes,
        (postNote now req (run rs s)).res.payload = .note n → n.id ≠ m.id) := by
  obtain ⟨hsorted, hpos, hbound⟩ := reachable_idInv s h
  refine ⟨?_, ?_, hsorted, fun r => handle_nextId_le r s, fun rs => run_nextId_le rs s, ?_⟩
  · exact hsorted.imp (fun hab => Nat.ne_of_lt hab)
  · intro m hm
    exact hbound m.id (List.mem_map_of_mem Note.id hm)
  · intro rs now req n m hm hpay
    have hlt : m.id < s.nextId := (hbound m.id (List.mem_map_of_mem Note.id hm)).2
    have hle : s.nextId ≤ (run rs s).nextId := run_nextId_le rs s
    have hn : n.id = (run rs s).nextId := by
      by_cases hf : (!req.title.truthy || !req.body.truthy) = true
      · rw [postNote_of_falsy now req _ hf] at hpay
        cases hpay
      · simp at hf
        rw [postNote_of_truthy now req _ hf.1 hf.2] at hpay
        injection hpay with hpay
        rw [← hpay]
    omega

theorem reachable_id_discipline_witness :
    (run [.create "t0" ⟨.str "a", .str "b"⟩, .create "t1" ⟨.str "c", .str "d"⟩, .delete (some 1)]
        initStore).notes = [⟨2, .str "c", .str "d", "t1"⟩] ∧
      (run [.create "t0" ⟨.str "a", .str "b"⟩, .create "t1" ⟨.str "c", .str "d"⟩, .delete (some 1)]
        initStore).nextId = 3 ∧
      ((run [.create "t0" ⟨.str "a", .str "b"⟩, .create "t1" ⟨.str "c", .str "d"⟩,
        .delete (some 1)] initStore).notes.map Note.id).Nodup ∧
      ∀ m ∈ (run [.create "t0" ⟨.str "a", .str "b"⟩, .create "t1" ⟨.str "c", .str "d"⟩,
          .delete (some 1)] initStore).notes,
        0 < m.id ∧ m.id < (run [.create "t0" ⟨.str "a", .str "b"⟩,
          .create "t1" ⟨.str "c", .str "d"⟩, .delete (some 1)] initStore).nextId :=
  have h := reachable_id_discipline
    (run [.create "t0" ⟨.str "a", .str "b"⟩, .create "t1" ⟨.str "c", .str "d"⟩, .delete (some 1)]
      initStore) ⟨_, rfl⟩
  ⟨rfl, rfl, h.1, h.2.1⟩


theorem run_append (rs : List Request) (r : Request) :
    ∀ s : Store, run (rs ++ [r]) s = (handle r (run rs s)).store := by
  induction rs with
  | nil => intro s; rfl
  | cons q rest ih => intro s; exact ih (handle q s).store

theorem rewriteResume_reachable (answer : Except String JsVal) (p : PendingRewrite) (s : Store)
    (h : Reachable s)
    (hprompt : ∀ m ∈ s.notes, m.id = p.noteId → ∃ user, rewriteUser m.body = .ok user) :
    Reachable (rewriteResume answer p s).2 := by
  cases hans : awaitResult answer with
  | error e =>
    have : (rewriteResume answer p s).2 = s := by
      unfold rewriteResume
      rw [hans]
    rw [this]
    exact h
  | ok R =>
    have hres : (rewriteResume answer p s).2 = ⟨setBody s.notes (some p.noteId) R, s.nextId⟩ := by
      unfold rewriteResume
      rw [hans]
    rw [hres]
    cases hfind : findNote s.notes (some p.noteId) with
    | none =>
      have habsent : ∀ m ∈ s.notes, idEq m.id (some p.noteId) = false := by
        intro m hm
        unfold findNote at hfind
        rw [List.find?_eq_none] at hfind
        simpa using hfind m hm
      rw [setBody_absent (some p.noteId) R s.notes habsent]
      exact h
    | some n =>
      obtain ⟨hn, hid⟩ := findNote_id (some p.noteId) n s.notes hfind
      have hnid : n.id = p.noteId := (Option.some.inj hid).symm
      obtain ⟨user, huser⟩ := hprompt n hn hnid
      obtain ⟨rs, hrs⟩ := h
      refine ⟨rs ++ [.rewrite (fun _ => answer) (some p.noteId)], ?_⟩
      rw [run_append, hrs]
      show (rewriteNote (fun _ => answer) (some p.noteId) s).store = _
      have hstart : rewriteStart (some p.noteId) s = .awaiting ⟨n.id, user⟩ := by
        unfold rewriteStart
        rw [hfind]
        dsimp only
        rw [huser]
      unfold rewriteNote
      rw [hstart]
      dsimp only
      unfold rewriteResume
      rw [hans, hnid]

/-- C2: in every store the server can be in (reachable from the start-up store),
a create request with non-empty text title T and non-empty text body B is
answered 201 with the record of title T, body B and id equal to the next-id
counter, an id no stored note has; the new list is the old list with that
record appended at the end, the counter advances by one, and a subsequent list
returns the new list, which contains the record. -/
theorem postNote_creates_fresh (now T B : String) (s : Store) (h : Reachable s)
    (hT : T ≠ "") (hB : B ≠ "") :
    (postNote now ⟨.str T, .str B⟩ s).res = ⟨201, .note ⟨s.nextId, .str T, .str B, now⟩⟩ ∧
      (∀ m ∈ s.notes, m.id ≠ s.nextId) ∧
      (postNote now ⟨.str T, .str B⟩ s).store.notes =
        s.notes ++ [⟨s.nextId, .str T, .str B, now⟩] ∧
      (postNote now ⟨.str T, .str B⟩ s).store.nextId = s.nextId + 1 ∧
      (getNotes (postNote now ⟨.str T, .str B⟩ s).store).res =
        ⟨200, .notes (s.notes ++ [⟨s.nextId, .str T, .str B, now⟩])⟩ ∧
      (⟨s.nextId, .str T, .str B, now⟩ : Note) ∈
        (postNote now ⟨.str T, .str B⟩ s).store.notes := by
  have ht : (JsVal.str T).truthy = true := by simp [JsVal.truthy, hT]
  have hb : (JsVal.str B).truthy = true := by simp [JsVal.truthy, hB]
  have hpost := postNote_of_truthy now ⟨.str T, .str B⟩ s ht hb
  dsimp only at hpost
  rw [hpost]
  obtain ⟨_, _, hbound⟩ := reachable_idInv s h
  refine ⟨rfl, ?_, rfl, rfl, rfl, ?_⟩
  · intro m hm
    exact Nat.ne_of_lt (hbound m.id (List.mem_map_of_mem Note.id hm)).2
  · simp

theorem postNote_creates_fresh_witness :
    (postNote "t1" ⟨.str "T", .str "B"⟩ (run [.create "t0" ⟨.str "a", .str "b"⟩] initStore)).res =
        ⟨201, .note ⟨2, .str "T", .str "B", "t1"⟩⟩ ∧
      (∀ m ∈ (run [.create "t0" ⟨.str "a", .str "b"⟩] initStore).notes, m.id ≠ 2) ∧
      (postNote "t1" ⟨.str "T", .str "B"⟩
          (run [.create "t0" ⟨.str "a", .str "b"⟩] initStore)).store.notes =
        [⟨1, .str "a", .str "b", "t0"⟩, ⟨2, .str "T", .str "B", "t1"⟩] :=
  have h := postNote_creates_fresh "t1" "T" "B"
    (run [.create "t0" ⟨.str "a", .str "b"⟩] initStore) ⟨_, rfl⟩ (by decide) (by decide)
  ⟨h.1, h.2.1, h.2.2.1⟩

/-- C3, as stated, fails: the server does not trim. A create request whose title
is three spaces (empty after trimming) and whose body is "B" is answered 201 and
the record is stored. -/
theorem postNote_whitespace_title_counterexample :
    jsTrim "   " = "" ∧
      (postNote "t0" ⟨.str "   ", .str "B"⟩ initStore).res =
        ⟨201, .note ⟨1, .str "   ", .str "B", "t0"⟩⟩ ∧
      (postNote "t0" ⟨.str "   ", .str "B"⟩ initStore).store.notes =
        [⟨1, .str "   ", .str "B", "t0"⟩] :=
  ⟨rfl, rfl, rfl⟩

/-- C3 (amended): for text title t and text body b the server answers 400 exactly
when t or b is the empty string, untrimmed, and then leaves the store as it
was; otherwise it answers 201 and stores t and b as sent, whitespace included.
The client form trims: it sends no request exactly when the title input or the
body input is empty after trimming, and the store then stays as it was;
otherwise the request it sends carries the trimmed inputs, and the record the
server stores has the trimmed title and body. -/
theorem create_validation (now t b : String) (s : Store) :
    ((postNote now ⟨.str t, .str b⟩ s).res.status = 400 ↔ (t = "" ∨ b = "")) ∧
      ((t = "" ∨ b = "") → (postNote now ⟨.str t, .str b⟩ s).store = s) ∧
      ((t ≠ "" ∧ b ≠ "") →
        (postNote now ⟨.str t, .str b⟩ s).res =
          ⟨201, .note ⟨s.nextId, .str t, .str b, now⟩⟩ ∧
        (postNote now ⟨.str t, .str b⟩ s).store =
          ⟨s.notes ++ [⟨s.nextId, .str t, .str b, now⟩], s.nextId + 1⟩) ∧
      (submitForm t b = none ↔ (jsTrim t = "" ∨ jsTrim b = "")) ∧
      ((jsTrim t = "" ∨ jsTrim b = "") → submitAndCreate now t b s = s) ∧
      ((jsTrim t ≠ "" ∧ jsTrim b ≠ "") →
        submitForm t b = some ⟨.str (jsTrim t), .str (jsTrim b)⟩ ∧
        submitAndCreate now t b s =
          ⟨s.notes ++ [⟨s.nextId, .str (jsTrim t), .str (jsTrim b), now⟩], s.nextId + 1⟩) := by
  have hserver : ∀ x y : String, (x ≠ "" ∧ y ≠ "") →
      postNote now ⟨.str x, .str y⟩ s =
        ⟨⟨201, .note ⟨s.nextId, .str x, .str y, now⟩⟩,
          ⟨s.notes ++ [⟨s.nextId, .str x, .str y, now⟩], s.nextId + 1⟩, []⟩ := by
    intro x y h
    exact postNote_of_truthy now ⟨.str x, .str y⟩ s (by simp [JsVal.truthy, h.1])
      (by simp [JsVal.truthy, h.2])
  have hreject : (t = "" ∨ b = "") →
      postNote now ⟨.str t, .str b⟩ s =
        ⟨⟨400, .error "Title and body are required"⟩, s, []⟩ := by
    intro h
    apply postNote_of_falsy
    rcases h with h | h <;> simp [h, JsVal.truthy]
  have hnone : (jsTrim t = "" ∨ jsTrim b = "") → submitForm t b = none := by
    intro h
    unfold submitForm
    dsimp only
    rw [if_pos]
    rcases h with h | h <;> simp [h, JsVal.truthy]
  have hsome : (jsTrim t ≠ "" ∧ jsTrim b ≠ "") →
      submitForm t b = some ⟨.str (jsTrim t), .str (jsTrim b)⟩ := by
    intro h
    unfold submitForm
    dsimp only
    rw [if_neg]
    simp [JsVal.truthy, h.1, h.2]
  refine ⟨?_, ?_, ?_, ?_, ?_, ?_⟩
  · by_cases h : t = "" ∨ b = ""
    · rw [hreject h]
      simp [h]
    · have h1 : t ≠ "" := fun e => h (Or.inl e)
      have h2 : b ≠ "" := fun e => h (Or.inr e)
      rw [hserver t b ⟨h1, h2⟩]
      simp [h]
  · intro h
    rw [hreject h]
  · intro h
    rw [hserver t b h]
    exact ⟨rfl, rfl⟩
  · constructor
    · intro h
      by_contra hne
      have h1 : jsTrim t ≠ "" := fun e => hne (Or.inl e)
      have h2 : jsTrim b ≠ "" := fun e => hne (Or.inr e)
      rw [hsome ⟨h1, h2⟩] at h
      cases h
    · exact hnone
  · intro h
    unfold submitAndCreate
    rw [hnone h]
  · intro h
    refine ⟨hsome h, ?_⟩
    unfold submitAndCreate
    rw [hsome h]
    dsimp only
    rw [hserver (jsTrim t) (jsTrim b) h]

theorem create_validation_witness :
    (postNote "t0" ⟨.str "   ", .str "B"⟩ initStore).store =
        ⟨[⟨1, .str "   ", .str "B", "t0"⟩], 2⟩ ∧
      submitForm "   " "B" = none ∧
      submitAndCreate "t0" "   " "B" initStore = initStore ∧
      submitAndCreate "t0" " T " "B\n" initStore = ⟨[⟨1, .str "T", .str "B", "t0"⟩], 2⟩ :=
  have h := create_validation "t0" "   " "B" initStore
  have h2 := create_validation "t0" " T " "B\n" initStore
  ⟨(h.2.2.1 ⟨by decide, by decide⟩).2, h.2.2.2.1.mpr (Or.inl rfl), h.2.2.2.2.1 (Or.inl rfl),
    (h2.2.2.2.2.2 ⟨by decide, by decide⟩).2⟩

/-! ## Titles and bodies of stored notes -/

theorem mem_setBody (id : ReqId) (R : String) :
    ∀ (notes : List Note) (m : Note), m ∈ setBody notes id R →
      m ∈ notes ∨ ∃ k ∈ notes, m = ⟨k.id, k.title, .str R, k.createdAt⟩ := by
  intro notes
  induction notes with
  | nil => intro m hm; simp [setBody] at hm
  | cons a rest ih =>
    intro m hm
    by_cases ha : idEq a.id id = true
    · rw [setBody, if_pos ha] at hm
      rcases List.mem_cons.mp hm with rfl | hm
      · exact Or.inr ⟨a, List.mem_cons_self a rest, rfl⟩
      · exact Or.inl (List.mem_cons_of_mem a hm)
    · rw [setBody, if_neg ha] at hm
      rcases List.mem_cons.mp hm with rfl | hm
      · exact Or.inl (List.mem_cons_self _ rest)
      · rcases ih m hm with h | ⟨k, hk, hmk⟩
        · exact Or.inl (List.mem_cons_of_mem a h)
        · exact Or.inr ⟨k, List.mem_cons_of_mem a hk, hmk⟩


theorem handle_fields (Pt Pb : JsVal → Prop) (r : Request) (s : Store)
    (hcreate : ∀ now req, r = Request.create now req → req.title.truthy = true →
      req.body.truthy = true → Pt req.title ∧ Pb req.body)
    (htext : ∀ R ∈ stepTexts r s, Pb (.str R))
    (h : ∀ m ∈ s.notes, Pt m.title ∧ Pb m.body) :
    ∀ m ∈ (handle r s).store.notes, Pt m.title ∧ Pb m.body := by
  cases r with
  | list => exact h
  | create now req =>
    show ∀ m ∈ (postNote now req s).store.notes, Pt m.title ∧ Pb m.body
    rcases postNote_store now req s with hs | ⟨ht, hb, hs⟩
    · rw [hs]; exact h
    · rw [hs]
      intro m hm
      rcases List.mem_append.mp hm with hm | hm
      · exact h m hm
      · rw [List.mem_singleton.mp hm]; exact hcreate now req rfl ht hb
  | delete id =>
    show ∀ m ∈ (deleteNote id s).store.notes, Pt m.title ∧ Pb m.body
    rw [deleteNote_store]
    intro m hm
    exact h m (List.mem_of_mem_filter hm)
  | summarize provider id =>
    show ∀ m ∈ (summarizeNote provider id s).store.notes, Pt m.title ∧ Pb m.body
    rw [summarizeNote_store]; exact h
  | rewrite provider id =>
    show ∀ m ∈ (rewriteNote provider id s).store.notes, Pt m.title ∧ Pb m.body
    rcases rewriteNote_cases provider id s with ⟨hs, _⟩ | ⟨n, user, R, _, _, _, hs⟩
    · rw [hs]; exact h
    · have hR : Pb (.str R) := by
        apply htext
        simp [stepTexts, hs]
      rw [hs]
      intro m hm
      rcases mem_setBody (some n.id) R s.notes m hm with hm | ⟨k, hk, rfl⟩
      · exact h m hm
      · exact ⟨(h k hk).1, hR⟩

theorem run_fields (Pt Pb : JsVal → Prop) :
    ∀ (rs : List Request) (s : Store),
      (∀ r ∈ rs, ∀ now req, r = Request.create now req → req.title.truthy = true →
        req.body.truthy = true → Pt req.title ∧ Pb req.body) →
      (∀ R ∈ rewriteTexts rs s, Pb (.str R)) →
      (∀ m ∈ s.notes, Pt m.title ∧ Pb m.body) →
      ∀ m ∈ (run rs s).notes, Pt m.title ∧ Pb m.body := by
  intro rs
  induction rs with
  | nil => intro s _ _ h; exact h
  | cons r rest ih =>
    intro s hcreate htext h
    have htexts : rewriteTexts (r :: rest) s =
        stepTexts r s ++ rewriteTexts rest (handle r s).store := rfl
    rw [htexts] at htext
    exact ih (handle r s).store
      (fun q hq => hcreate q (List.mem_cons_of_mem r hq))
      (fun R hR => htext R (List.mem_append_right _ hR))
      (handle_fields Pt Pb r s (hcreate r (List.mem_cons_self r rest))
        (fun R hR => htext R (List.mem_append_left _ hR)) h)

/-- C9, as stated, fails: after a create and a rewrite whose provider response
carries neither text field, the helper returns the empty text and the stored
note has the empty string as body. -/
theorem rewrite_empties_body_counterexample :
    (run [.create "t0" ⟨.str "T", .str "B"⟩, .rewrite (fun _ => .ok (.obj [])) (some 1)]
        initStore).notes = [⟨1, .str "T", .str "", "t0"⟩] ∧
      ¬ ∀ m ∈ (run [.create "t0" ⟨.str "T", .str "B"⟩,
          .rewrite (fun _ => .ok (.obj [])) (some 1)] initStore).notes,
        m.body.truthy = true := by
  refine ⟨rfl, ?_⟩
  intro h
  have := h ⟨1, .str "T", .str "", "t0"⟩ (List.mem_singleton.mpr rfl)
  simp [JsVal.truthy] at this

/-- C9 (amended): in the store reached from the start-up store by a request
sequence, every stored title passes the presence test of the create handler (it
is not undefined, null, false, 0 or the empty string), and so does every stored
body provided each text the LLM helper returned to a rewrite request of the
sequence was non-empty. When the create requests of the sequence carry text for
title and body, every stored title is a non-empty text, and every stored body
is a non-empty text provided each text returned to a rewrite request of the
sequence was non-empty. -/
theorem reachable_title_body (rs : List Request) :
    (∀ m ∈ (run rs initStore).notes, m.title.truthy = true) ∧
      ((∀ R ∈ rewriteTexts rs initStore, R ≠ "") →
        ∀ m ∈ (run rs initStore).notes, m.body.truthy = true) ∧
      ((∀ r ∈ rs, TextCreate r) →
        ∀ m ∈ (run rs initStore).notes, ∃ t, m.title = .str t ∧ t ≠ "") ∧
      ((∀ r ∈ rs, TextCreate r) → (∀ R ∈ rewriteTexts rs initStore, R ≠ "") →
        ∀ m ∈ (run rs initStore).notes, ∃ b, m.body = .str b ∧ b ≠ "") := by
  have hinit : ∀ m : Note, m ∈ initStore.notes → False := by
    intro m hm
    simp [initStore] at hm
  have htextOf : ∀ (v : JsVal) (x : String), v = .str x → v.truthy = true → x ≠ "" := by
    intro v x hv hx
    subst hv
    simpa [JsVal.truthy] using hx
  refine ⟨?_, ?_, ?_, ?_⟩
  · intro m hm
    exact (run_fields (fun v => v.truthy = true) (fun _ => True) rs initStore
      (fun _ _ _ _ _ ht _ => ⟨ht, trivial⟩) (fun _ _ => trivial) (fun m hm => (hinit m hm).elim) m hm).1
  · intro htext m hm
    exact (run_fields (fun v => v.truthy = true) (fun v => v.truthy = true) rs initStore
      (fun _ _ _ _ _ ht hb => ⟨ht, hb⟩)
      (fun R hR => by simp [JsVal.truthy, htext R hR]) (fun m hm => (hinit m hm).elim) m hm).2
  · intro hcreate m hm
    refine (run_fields (fun v => ∃ t, v = .str t ∧ t ≠ "") (fun v => ∃ b, v = .str b) rs
      initStore ?_ (fun R _ => ⟨R, rfl⟩) (fun m hm => (hinit m hm).elim) m hm).1
    intro r hr now req hreq ht hb
    have hc := hcreate r hr
    rw [hreq] at hc
    obtain ⟨t, b, h1, h2⟩ := hc
    exact ⟨⟨t, h1, htextOf _ t h1 ht⟩, ⟨b, h2⟩⟩
  · intro hcreate htext m hm
    refine (run_fields (fun v => ∃ t, v = .str t ∧ t ≠ "") (fun v => ∃ b, v = .str b ∧ b ≠ "")
      rs initStore ?_ (fun R hR => ⟨R, rfl, htext R hR⟩) (fun m hm => (hinit m hm).elim) m hm).2
    intro r hr now req hreq ht hb
    have hc := hcreate r hr
    rw [hreq] at hc
    obtain ⟨t, b, h1, h2⟩ := hc
    exact ⟨⟨t, h1, htextOf _ t h1 ht⟩, ⟨b, h2, htextOf _ b h2 hb⟩⟩

theorem reachable_title_body_witness :
    rewriteTexts [.create "t0" ⟨.str "T", .str "B"⟩,
        .rewrite (fun _ => .ok (.obj [("output_text", .str "x")])) (some 1)] initStore = ["x"] ∧
      ∀ m ∈ (run [.create "t0" ⟨.str "T", .str "B"⟩,
          .rewrite (fun _ => .ok (.obj [("output_text", .str "x")])) (some 1)] initStore).notes,
        ∃ b, m.body = .str b ∧ b ≠ "" :=
  ⟨rfl, (reachable_title_body [.create "t0" ⟨.str "T", .str "B"⟩,
      .rewrite (fun _ => .ok (.obj [("output_text", .str "x")])) (some 1)]).2.2.2
    (by
      intro r hr
      simp only [List.mem_cons, List.mem_singleton, List.not_mem_nil, or_false] at hr
      rcases hr with rfl | rfl
      · exact ⟨"T", "B", rfl, rfl⟩
      · trivial)
    (by
      intro R hR
      have htexts : rewriteTexts [.create "t0" ⟨.str "T", .str "B"⟩,
          .rewrite (fun _ => .ok (.obj [("output_text", .str "x")])) (some 1)] initStore =
          ["x"] := rfl
      rw [htexts, List.mem_singleton] at hR
      rw [hR]
      decide)⟩

/-! ## The LLM helper -/

theorem dropWhile_head_not_space (cs : List Char) (c : Char)
    (h : (cs.dropWhile isJsSpace).head? = some c) : isJsSpace c = false := by
  have := List.head?_dropWhile_not isJsSpace cs
  rw [h] at this
  exact this

theorem trimChars_spec (cs : List Char) :
    ∃ pre post, cs = pre ++ trimChars cs ++ post ∧
      (∀ c ∈ pre, isJsSpace c = true) ∧ (∀ c ∈ post, isJsSpace c = true) ∧
      (∀ c, (trimChars cs).head? = some c → isJsSpace c = false) ∧
      (∀ c, (trimChars cs).getLast? = some c → isJsSpace c = false) := by
  have hsplit : trimChars cs ++
      (((cs.dropWhile isJsSpace).reverse).takeWhile isJsSpace).reverse =
      cs.dropWhile isJsSpace := by
    unfold trimChars
    rw [← List.reverse_append, List.takeWhile_append_dropWhile, List.reverse_reverse]
  refine ⟨cs.takeWhile isJsSpace,
    (((cs.dropWhile isJsSpace).reverse).takeWhile isJsSpace).reverse, ?_, ?_, ?_, ?_, ?_⟩
  · rw [List.append_assoc, hsplit, List.takeWhile_append_dropWhile]
  · intro c hc
    exact List.mem_takeWhile_imp hc
  · intro c hc
    exact List.mem_takeWhile_imp (List.mem_reverse.mp hc)
  · intro c hc
    have hne : trimChars cs ≠ [] := by
      intro e
      rw [e] at hc
      simp at hc
    have := @List.head?_append_of_ne_nil Char (trimChars cs)
      ((((cs.dropWhile isJsSpace).reverse).takeWhile isJsSpace).reverse) hne
    rw [hsplit, hc] at this
    exact dropWhile_head_not_space cs c this
  · intro c hc
    unfold trimChars at hc
    rw [List.getLast?_reverse] at hc
    exact dropWhile_head_not_space _ c hc

/-- C10: when the provider answers with a response, the text `callLLM` extracts
is the output_text of the response when that is present (neither null nor undefined),
otherwise the nested output[0].content[0].text.value when that is present,
otherwise the empty string; the value returned is the extracted text with the
whitespace at both ends removed; when neither field is present the helper
returns the empty text and raises no error. -/
theorem callLLM_extracts_text (provider : Provider) (system user : String) (response : JsVal)
    (hp : provider (llmRequest system user) = .ok response)
    (hobj : response.isNullish = false) :
    (extractText response =
        if (response.get "output_text").isNullish = false then response.get "output_text"
        else if (nestedText response).isNullish = false then nestedText response
        else .str "") ∧
      (∀ text, extractText response = .str text →
        callLLM provider system user = .ok (jsTrim text) ∧
        ∃ pre post, text.data = pre ++ (jsTrim text).data ++ post ∧
          (∀ c ∈ pre, isJsSpace c = true) ∧ (∀ c ∈ post, isJsSpace c = true) ∧
          (∀ c, (jsTrim text).data.head? = some c → isJsSpace c = false) ∧
          (∀ c, (jsTrim text).data.getLast? = some c → isJsSpace c = false)) ∧
      ((response.get "output_text").isNullish = true → (nestedText response).isNullish = true →
        callLLM provider system user = .ok "") := by
  have hcall : callLLM provider system user = textOfResponse response := by
    unfold callLLM
    rw [hp]
  refine ⟨?_, ?_, ?_⟩
  · unfold extractText JsVal.coalesce
    cases h1 : (response.get "output_text").isNullish <;>
      cases h2 : (nestedText response).isNullish <;> simp [h1, h2]
  · intro text htext
    refine ⟨?_, trimChars_spec text.data⟩
    rw [hcall]
    unfold textOfResponse
    rw [hobj, htext]
    rfl
  · intro h1 h2
    have hex : extractText response = .str "" := by
      unfold extractText JsVal.coalesce
      rw [if_pos h1, if_pos h2]
    rw [hcall]
    unfold textOfResponse
    rw [hobj, hex]
    rfl

theorem callLLM_extracts_text_witness :
    callLLM (fun _ => .ok (.obj [("output", .arr [.obj [("content",
        .arr [.obj [("text", .obj [("value", .str " hi\n")])]])]])])) "s" "u" =
        .ok (jsTrim " hi\n") ∧
      jsTrim " hi\n" = "hi" ∧
      callLLM (fun _ => .ok (.obj [("output_text", .str "a b "), ("output", .arr [])])) "s" "u" =
        .ok (jsTrim "a b ") ∧
      jsTrim "a b " = "a b" ∧
      callLLM (fun _ => .ok (.obj [("id", .str "resp_1")])) "s" "u" = .ok "" :=
  have h1 := callLLM_extracts_text (fun _ => .ok (.obj [("output", .arr [.obj [("content",
      .arr [.obj [("text", .obj [("value", .str " hi\n")])]])]])])) "s" "u" _ rfl rfl
  have h2 := callLLM_extracts_text
    (fun _ => .ok (.obj [("output_text", .str "a b "), ("output", .arr [])])) "s" "u" _ rfl rfl
  have h3 := callLLM_extracts_text (fun _ => .ok (.obj [("id", .str "resp_1")])) "s" "u" _ rfl rfl
  ⟨(h1.2.1 " hi\n" rfl).1, rfl, (h2.2.1 "a b " rfl).1, rfl, h3.2.2 rfl rfl⟩

end TinyNotes

